import Mathlib

/-!
Shallow embedding of the `brir` pipeline-enforcer plugin:
the phase state machine (`pipelineAdvance`, `pipelineStatus`, the
`tool.execute.before` / `tool.execute.after` hooks and the `chat.message`
reset) and the unified-diff patch engine (`parsePatch`, `applyHunks`,
`applyPatch`).  The TypeScript source keeps per-session mutable state; here
state is passed explicitly.  Functions that return an error string in the
source ("ERROR..." results, thrown tool rejections) are embedded with
`Except String`, keeping the exact message text as the payload.  External
effects (logging, toasts) do not touch the pipeline state and are omitted;
the lazy git-repository probe result is passed in as a boolean parameter
`probe`.
-/

deriving instance DecidableEq for Except

namespace Brir

/-- Lower-case an ASCII letter (tool names are ASCII). -/
def charLowerAscii (c : Char) : Char :=
  if 'A' ≤ c ∧ c ≤ 'Z' then Char.ofNat (c.toNat + 32) else c

/-- String helper mirroring JavaScript `String.prototype.toLowerCase` on
the ASCII tool names it is applied to. -/
def strToLower (s : String) : String :=
  String.mk (s.data.map charLowerAscii)

/-- String helper mirroring JavaScript `String.prototype.startsWith`. -/
def strStartsWith (s p : String) : Bool :=
  List.isPrefixOf p.data s.data

/-- String helper mirroring JavaScript `String.prototype.endsWith`. -/
def strEndsWith (s p : String) : Bool :=
  List.isSuffixOf p.data s.data

/-- Check whether `sub` occurs as a contiguous block of `l`. -/
def listContainsSeq {α : Type} [DecidableEq α] (sub : List α) : List α → Bool
  | [] => List.isPrefixOf sub []
  | c :: cs => List.isPrefixOf sub (c :: cs) || listContainsSeq sub cs

/-- String helper mirroring JavaScript `String.prototype.includes`. -/
def strContainsSub (s sub : String) : Bool :=
  listContainsSeq sub.data s.data

/-- String helper mirroring JavaScript `String.prototype.trimStart`. -/
def trimStartStr (s : String) : String :=
  String.mk (s.data.dropWhile Char.isWhitespace)

/-- String helper mirroring JavaScript `String.prototype.trim`. -/
def trimStr (s : String) : String :=
  String.mk ((s.data.dropWhile Char.isWhitespace).reverse.dropWhile Char.isWhitespace |>.reverse)

/-- The six pipeline phases (TypeScript union type `Phase`). -/
inductive Phase where
  | brainstorming
  | refining
  | dispatching
  | reviewing
  | reporting
  | complete
deriving DecidableEq, Repr

/-- Phase rendered back to its source string. -/
def Phase.toStr : Phase → String
  | .brainstorming => "brainstorming"
  | .refining => "refining"
  | .dispatching => "dispatching"
  | .reviewing => "reviewing"
  | .reporting => "reporting"
  | .complete => "complete"

/-- Phase name upper-cased, as produced by `targetPhase.toUpperCase()`. -/
def Phase.toUpper : Phase → String
  | .brainstorming => "BRAINSTORMING"
  | .refining => "REFINING"
  | .dispatching => "DISPATCHING"
  | .reviewing => "REVIEWING"
  | .reporting => "REPORTING"
  | .complete => "COMPLETE"

/-- Per-session pipeline state (interface `PipelineState`).  `isGitRepo`
is `boolean | null` in the source, embedded as `Option Bool` with `none`
for the not-yet-detected case. -/
structure PipelineState where
  phase : Phase
  iterations : Nat
  gitDiffCalled : Bool
  isGitRepo : Option Bool
  startTime : Nat
  dispatches : Nat
deriving DecidableEq, Repr

/-- Source constant `MAX_ITERATIONS`. -/
def MAX_ITERATIONS : Nat := 3

/-- Source constant `TRANSITIONS`: current phase to allowed target phases. -/
def TRANSITIONS : Phase → List Phase
  | .brainstorming => [.refining]
  | .refining => [.dispatching]
  | .dispatching => []
  | .reviewing => [.dispatching, .reporting]
  | .reporting => [.complete]
  | .complete => []

/-- Source constant `TARGET_ALIASES` as an association list in insertion
order (used for `Object.entries` / `Object.keys` iteration). -/
def TARGET_ALIASES_LIST : List (String × Phase) :=
  [("refine", .refining), ("dispatch", .dispatching), ("iterate", .dispatching),
   ("report", .reporting), ("complete", .complete)]

/-- Lookup in `TARGET_ALIASES` (record field access by key). -/
def TARGET_ALIASES (t : String) : Option Phase :=
  if t = "refine" then some .refining
  else if t = "dispatch" then some .dispatching
  else if t = "iterate" then some .dispatching
  else if t = "report" then some .reporting
  else if t = "complete" then some .complete
  else none

/-- Source constant `PHASE_GUIDANCE`. -/
def PHASE_GUIDANCE : Phase → String
  | .brainstorming => "New request received. Load the brainstorming skill and explore context with the user. Ask clarifying questions, propose approaches, and get design approval before advancing. Call pipeline_advance(\x27refine\x27) when the user approves the design."
  | .refining => "Transform the approved design into a precise implementation spec for brir-implementer. Include: files to modify/create (absolute paths), code patterns, expected behavior, test expectations, what NOT to change, and validation commands. Show the spec to the user and ask for approval. Call pipeline_advance(\x27dispatch\x27) when approved."
  | .dispatching => "Dispatch the refined spec to brir-implementer via the Task tool. Include the full spec, relevant file contents, success criteria, and validation commands. The pipeline will auto-advance to reviewing when the task completes."
  | .reviewing => "Review the implementation. You MUST run \x60git diff\x60 to see all changes. Read modified files and evaluate against the approved design. Check for bugs, logic errors, missed edge cases, convention violations, and security concerns. Call pipeline_advance(\x27report\x27) when satisfied, or pipeline_advance(\x27iterate\x27) to re-dispatch with fixes."
  | .reporting => "Provide a concise summary: what changed and why, files modified (with line references), review status (approved / approved with caveats), and any remaining concerns or follow-ups. Call pipeline_advance(\x27complete\x27) when done."
  | .complete => "Pipeline complete. Waiting for next user request."

/-- Source constant `REVIEWING_NO_GIT`. -/
def REVIEWING_NO_GIT : String :=
  "Review the implementation. This directory is NOT a git repository, so skip \x60git diff\x60. Instead, Read each modified file directly and verify the changes match the approved design. Check for bugs, logic errors, missed edge cases, convention violations, and security concerns. Call pipeline_advance(\x27report\x27) when satisfied, or pipeline_advance(\x27iterate\x27) to re-dispatch with fixes."

/-- Source helper `freshState` (the `Date.now()` timestamp is a parameter). -/
def freshState (now : Nat) : PipelineState :=
  { phase := .brainstorming, iterations := 0, gitDiffCalled := false,
    isGitRepo := none, startTime := now, dispatches := 0 }

/-- Source helper `getPhaseGuidance`. -/
def getPhaseGuidance (phase : Phase) (state : PipelineState) : String :=
  if phase = .reviewing ∧ state.isGitRepo = some false then REVIEWING_NO_GIT
  else PHASE_GUIDANCE phase

/-- Source helper `ensureGitRepoDetected`: lazily memoize the git probe
result (`probe` stands for the outcome of `checkGitRepo`). -/
def ensureGitRepoDetected (probe : Bool) (state : PipelineState) : PipelineState :=
  match state.isGitRepo with
  | none => { state with isGitRepo := some probe }
  | some _ => state

/-- Alias-name reverse lookup used in `formatStatus` / `statusBanner`:
first alias whose target is the phase, with the reviewing-to-dispatching
special case rendered as "iterate". -/
def statusAliasFor (cur p : Phase) : String :=
  match TARGET_ALIASES_LIST.find? (fun ap => ap.2 == p) with
  | some ap => if cur = .reviewing ∧ p = .dispatching then "iterate" else ap.1
  | none => p.toStr

/-- Alias-name reverse lookup used in the invalid-transition error branch of
`pipelineAdvance`: "iterate" for reviewing-to-dispatching, otherwise the
first non-"iterate" alias for the target phase. -/
def advanceAliasFor (cur p : Phase) : String :=
  if cur = .reviewing ∧ p = .dispatching then "iterate"
  else
    match TARGET_ALIASES_LIST.find? (fun ap => ap.2 == p && ap.1 != "iterate") with
    | some ap => ap.1
    | none => p.toStr

/-- Join a list of strings with a separator (JavaScript `Array.join`). -/
def joinWith (sep : String) : List String → String
  | [] => ""
  | [x] => x
  | x :: xs => x ++ sep ++ joinWith sep xs

/-- Source helper `formatStatus` (the variant with the git label). -/
def formatStatus (state : PipelineState) : String :=
  let valid := (TRANSITIONS state.phase).map (statusAliasFor state.phase)
  let gitLabel :=
    if state.isGitRepo = some false then "n/a (not a git repo)"
    else if state.gitDiffCalled then "done" else "needed"
  joinWith " | "
    ["Phase: " ++ state.phase.toStr,
     "Iteration: " ++ toString state.iterations ++ "/" ++ toString MAX_ITERATIONS,
     "git diff: " ++ gitLabel,
     "Dispatches: " ++ toString state.dispatches,
     "Valid transitions: " ++
       (if valid.length > 0 then joinWith ", " valid else "(none -- automatic)")]

/-- Error message for an unknown advance target. -/
def unknownTargetMsg (target : String) : String :=
  "ERROR: Unknown target \x27" ++ target ++ "\x27. Valid targets: " ++
    joinWith ", " (TARGET_ALIASES_LIST.map (·.1))

/-- Error message for a target phase not reachable from the current phase. -/
def invalidTransitionMsg (cur : Phase) (target : String) : String :=
  let aliasNames := (TRANSITIONS cur).map (advanceAliasFor cur)
  "ERROR: Cannot transition from \x27" ++ cur.toStr ++ "\x27 to \x27" ++ target ++
    "\x27. Valid transitions from \x27" ++ cur.toStr ++ "\x27: " ++
    (if aliasNames.length > 0 then joinWith ", " aliasNames
     else "(none -- transitions are automatic)")

/-- Error message for exceeding the iteration cap. -/
def maxIterationsMsg : String :=
  "ERROR: Maximum iterations (" ++ toString MAX_ITERATIONS ++
    ") reached. You must proceed to \x27report\x27 instead. Note any remaining issues as caveats."

/-- Error message for the missing git-diff prerequisite of "report". -/
def gitDiffRequiredMsg : String :=
  "ERROR: You must run \x60git diff\x60 before advancing to report. This ensures you have reviewed all changes."

/-- Pipeline-advance tool (`pipelineAdvance.execute`).  The session lookup
is resolved to the given state; `probe` is the lazy git probe outcome.
Returns the reply (error replies embedded as `Except.error`, carrying the
exact "ERROR..." text) together with the updated state. -/
def pipelineAdvance (target : String) (probe : Bool) (s0 : PipelineState) :
    Except String String × PipelineState :=
  let s := ensureGitRepoDetected probe s0
  match TARGET_ALIASES target with
  | none => (.error (unknownTargetMsg target), s)
  | some targetPhase =>
    if targetPhase ∈ TRANSITIONS s.phase then
      if target = "iterate" then
        if MAX_ITERATIONS ≤ s.iterations then
          (.error maxIterationsMsg, s)
        else
          let s' := { s with gitDiffCalled := false, iterations := s.iterations + 1,
                             dispatches := s.dispatches + 1, phase := .dispatching }
          (.ok ("Advanced to DISPATCHING (iteration " ++ toString s'.iterations ++ "/" ++
                toString MAX_ITERATIONS ++ "). " ++ PHASE_GUIDANCE .dispatching), s')
      else if target = "report" ∧ s.gitDiffCalled = false ∧ s.isGitRepo ≠ some false then
        (.error gitDiffRequiredMsg, s)
      else
        let s' := { s with phase := targetPhase,
                           dispatches :=
                             if targetPhase = .dispatching then s.dispatches + 1
                             else s.dispatches }
        (.ok ("Advanced to " ++ targetPhase.toUpper ++ ". " ++ getPhaseGuidance targetPhase s'), s')
    else
      (.error (invalidTransitionMsg s.phase target), s)

/-- Pipeline-status tool (`pipelineStatus.execute`), with the same resolved
session state and probe outcome. -/
def pipelineStatus (probe : Bool) (s0 : PipelineState) : String × PipelineState :=
  let s := ensureGitRepoDetected probe s0
  (formatStatus s ++ "\n\nCurrent phase guidance: " ++ getPhaseGuidance s.phase s, s)

/-- Hook `tool.execute.after` for the bash branch: during reviewing, a shell
command whose trimmed text begins with "git diff" marks the prerequisite. -/
def toolExecuteAfterBash (toolName command : String) (s : PipelineState) : PipelineState :=
  if (toolName = "bash" ∨ toolName = "Bash") ∧ s.phase = .reviewing then
    if strStartsWith (trimStartStr command) "git diff" then
      { s with gitDiffCalled := true }
    else s
  else s

/-- Source constant `failureMarkers` in the task branch of `tool.execute.after`. -/
def failureMarkers : List String :=
  ["Task failed", "TASK_FAILED", "task was aborted", "agent crashed"]

/-- Hook `tool.execute.after` for the task branch: auto-advance dispatching
to reviewing when the dispatch output carries no failure marker. -/
def toolExecuteAfterTask (toolName taskOutput : String) (s : PipelineState) : PipelineState :=
  if (toolName = "task" ∨ toolName = "Task") ∧ s.phase = .dispatching then
    if failureMarkers.any (fun marker => strContainsSub taskOutput marker) then s
    else { s with phase := .reviewing }
  else s

/-- Hook `chat.message` for a session that already owns state: reset only
when the pipeline is complete and the turn comes from the orchestrator. -/
def chatMessageUpdate (agent : String) (now : Nat) (s : PipelineState) : PipelineState :=
  if agent = "orchestrator" then
    if s.phase = .complete then freshState now else s
  else s

/-- Source constant `SUBAGENT_ALLOWED_TOOLS`. -/
def SUBAGENT_ALLOWED_TOOLS : List String :=
  ["read", "write", "edit", "bash", "glob", "grep", "todo", "todowrite",
   "question", "invalid", "apply_patch", "pipeline_advance", "pipeline_status"]

/-- Rejection message thrown for a disallowed subagent tool. -/
def subagentBlockedMsg (toolName : String) : String :=
  "Tool \x27" ++ toolName ++ "\x27 is not available in implementation sessions. Use Read, Write, Edit, Bash, Glob, Grep, TodoWrite, or apply_patch for your work."

/-- Rejection message thrown for the task tool outside the dispatching phase. -/
def taskBlockedMsg (cur : Phase) : String :=
  "BLOCKED: The Task tool can only be used during the \x27dispatching\x27 phase. Current phase: \x27" ++
    cur.toStr ++ "\x27. Call pipeline_advance() to reach the dispatching phase first."

/-- Rejection message thrown for direct writes by the orchestrator. -/
def writeBlockedMsg : String :=
  "BLOCKED: The orchestrator must not write files directly. All code changes go through brir-implementer via the Task tool."

/-- Rejection message thrown for direct edits by the orchestrator. -/
def editBlockedMsg : String :=
  "BLOCKED: The orchestrator must not edit files directly. All code changes go through brir-implementer via the Task tool."

/-- Hook `tool.execute.before`: subagent allow-list, then the orchestrator
phase guards.  A thrown rejection is embedded as `Except.error`; the hook
never writes the pipeline state, which is returned unchanged. -/
def toolExecuteBefore (knownPrimary : Bool) (toolName : String)
    (state : Option PipelineState) : Except String Unit × Option PipelineState :=
  if knownPrimary = false then
    if SUBAGENT_ALLOWED_TOOLS.contains (strToLower toolName) then (.ok (), state)
    else (.error (subagentBlockedMsg toolName), state)
  else
    match state with
    | none => (.ok (), state)
    | some s =>
      if (toolName = "task" ∨ toolName = "Task") ∧ s.phase ≠ .dispatching then
        (.error (taskBlockedMsg s.phase), state)
      else if toolName = "write" ∨ toolName = "Write" then
        (.error writeBlockedMsg, state)
      else if toolName = "edit" ∨ toolName = "Edit" then
        (.error editBlockedMsg, state)
      else (.ok (), state)

/-! ## Patch engine -/

/-- Interface `PatchHunk`. -/
structure PatchHunk where
  oldStart : Nat
  oldCount : Nat
  newStart : Nat
  newCount : Nat
  lines : List String
deriving DecidableEq, Repr

/-- Interface `PatchFile`. -/
structure PatchFile where
  oldPath : String
  newPath : String
  hunks : List PatchHunk
deriving DecidableEq, Repr

/-- POSIX `path.isAbsolute`. -/
def isAbsolutePath (p : String) : Bool :=
  strStartsWith p "/"

/-- Source helper `resolvePatchPath`: strip a leading "a/" or "b/" prefix
and resolve against the working directory (`path.resolve` modeled as plain
POSIX join for a relative remainder). -/
def resolvePatchPath (patchPath baseDir : String) : String :=
  let cleaned :=
    if strStartsWith patchPath "a/" || strStartsWith patchPath "b/" then patchPath.drop 2
    else patchPath
  if isAbsolutePath cleaned then cleaned else baseDir ++ "/" ++ cleaned

/-- Split on newline characters, keeping empty segments, as JavaScript
`content.split("\n")` does. -/
def splitLinesAux : List Char → List Char → List String
  | [], acc => [String.mk acc.reverse]
  | c :: cs, acc =>
    if c = '\n' then String.mk acc.reverse :: splitLinesAux cs []
    else splitLinesAux cs (c :: acc)

/-- JavaScript `content.split("\n")`. -/
def splitLines (s : String) : List String :=
  splitLinesAux s.data []

/-- JavaScript `lines.join("\n")`. -/
def joinLines : List String → String :=
  joinWith "\n"

/-- Longest digit prefix of a character list, with the remainder. -/
def readDigits : List Char → List Char × List Char
  | [] => ([], [])
  | c :: cs =>
    if c.isDigit then
      let (ds, r) := readDigits cs
      (c :: ds, r)
    else ([], c :: cs)

/-- Digits to a number, as `parseInt(digits, 10)`. -/
def digitsToNat (ds : List Char) : Nat :=
  ds.foldl (fun n c => n * 10 + (c.toNat - 48)) 0

/-- Parse `<n>[,<m>]` with the count defaulting to 1, as the regex groups
`(\d+)(?:,(\d+))?` of the hunk header pattern. -/
def parseNumPair (cs : List Char) : Option (Nat × Nat × List Char) :=
  let (ds, r) := readDigits cs
  if ds.isEmpty then none
  else
    match r with
    | ',' :: r2 =>
      let (ds2, r3) := readDigits r2
      if ds2.isEmpty then some (digitsToNat ds, 1, r)
      else some (digitsToNat ds, digitsToNat ds2, r3)
    | _ => some (digitsToNat ds, 1, r)

/-- Match the hunk header pattern at the start of the character list. -/
def matchHunkHeaderAt (cs : List Char) : Option (Nat × Nat × Nat × Nat) :=
  match cs with
  | '@' :: '@' :: ' ' :: '-' :: r1 =>
    match parseNumPair r1 with
    | none => none
    | some (os, oc, r2) =>
      match r2 with
      | ' ' :: '+' :: r3 =>
        match parseNumPair r3 with
        | none => none
        | some (ns, nc, r4) =>
          match r4 with
          | ' ' :: '@' :: '@' :: _ => some (os, oc, ns, nc)
          | _ => none
      | _ => none
  | _ => none

/-- First match of the hunk header pattern anywhere in the line
(`line.match` performs a search). -/
def searchHunkHeader : List Char → Option (Nat × Nat × Nat × Nat)
  | [] => none
  | c :: cs =>
    match matchHunkHeaderAt (c :: cs) with
    | some r => some r
    | none => searchHunkHeader cs

/-- Append an edit line to the hunk most recently opened (`currentHunk`
aliases the last element of the current file's hunk list). -/
def appendToLastHunk (hs : List PatchHunk) (line : String) : List PatchHunk :=
  match hs with
  | [] => []
  | [h] => [{ h with lines := h.lines ++ [line] }]
  | h :: t => h :: appendToLastHunk t line

/-- Parser state of `parsePatch`: committed files, the file currently being
built, how many times it has been pushed to the result (a "+++" line pushes
the current file by reference), and whether a hunk is open. -/
structure ParseState where
  done : List PatchFile
  cur : Option PatchFile
  pushes : Nat
  hunkActive : Bool

/-- Files committed so far, with the current file appearing once per push. -/
def flushCur (st : ParseState) : List PatchFile :=
  match st.cur with
  | none => st.done
  | some f => st.done ++ List.replicate st.pushes f

/-- One line of the `parsePatch` scan. -/
def parsePatchLine (st : ParseState) (line : String) : ParseState :=
  if strStartsWith line "--- " then
    { done := flushCur st, cur := some ⟨trimStr (line.drop 4), "", []⟩,
      pushes := 0, hunkActive := false }
  else if strStartsWith line "+++ " then
    match st.cur with
    | some f =>
      { st with cur := some { f with newPath := trimStr (line.drop 4) },
                pushes := st.pushes + 1 }
    | none => st
  else if strStartsWith line "@@ " then
    match searchHunkHeader line.data, st.cur with
    | some (os, oc, ns, nc), some f =>
      { st with cur := some { f with hunks := f.hunks ++ [⟨os, oc, ns, nc, []⟩] },
                hunkActive := true }
    | _, _ => st
  else if st.hunkActive then
    if strStartsWith line "+" || strStartsWith line "-" || strStartsWith line " " then
      match st.cur with
      | some f => { st with cur := some { f with hunks := appendToLastHunk f.hunks line } }
      | none => st
    else st
  else st

/-- Source function `parsePatch`. -/
def parsePatch (patchText : String) : List PatchFile :=
  flushCur ((splitLines patchText).foldl parsePatchLine ⟨[], none, 0, false⟩)

/-- JavaScript `Array.prototype.splice(start, deleteCount, ...items)` as a
pure list operation, including the clamping of a negative or oversized
start index. -/
def spliceJS {α : Type} (l : List α) (start : Int) (deleteCount : Nat)
    (items : List α) : List α :=
  let len := l.length
  let actualStart : Nat :=
    if start < 0 then ((len : Int) + start).toNat else min start.toNat len
  l.take actualStart ++ items ++ l.drop (actualStart + deleteCount)

/-- Replacement lines of a hunk: context and add lines in original order
(the `addLines` array of `applyHunks`). -/
def hunkAddLines (h : PatchHunk) : List String :=
  (h.lines.filter fun l => strStartsWith l "+" || strStartsWith l " ").map (fun l => l.drop 1)

/-- Length of the replaced span: count of context and remove lines
(the `contextAndRemoveCount` counter of `applyHunks`). -/
def hunkOldLen (h : PatchHunk) : Nat :=
  (h.lines.filter fun l => strStartsWith l "-" || strStartsWith l " ").length

/-- Context and remove lines of a hunk in original order (the `removeLines`
array of `applyHunks`). -/
def hunkOldLines (h : PatchHunk) : List String :=
  (h.lines.filter fun l => strStartsWith l "-" || strStartsWith l " ").map (fun l => l.drop 1)

/-- Loop body of `applyHunks`: splice one hunk into the line list. -/
def applyOneHunk (fileLines : List String) (h : PatchHunk) : List String :=
  spliceJS fileLines ((h.oldStart : Int) - 1) (hunkOldLen h) (hunkAddLines h)

/-- Stable sort by descending `oldStart`, as the stable
`[...hunks].sort((a, b) => b.oldStart - a.oldStart)`. -/
def sortHunksDesc (hunks : List PatchHunk) : List PatchHunk :=
  hunks.insertionSort (fun a b => b.oldStart ≤ a.oldStart)

/-- Source function `applyHunks`. -/
def applyHunks (content : String) (hunks : List PatchHunk) : String :=
  joinLines ((sortHunksDesc hunks).foldl applyOneHunk (splitLines content))

/-! ## Filesystem model and the apply_patch tool -/

/-- Filesystem model: file contents keyed by path, plus the set of
directories created so far. -/
structure FS where
  files : List (String × String)
  dirs : List String
deriving DecidableEq, Repr

/-- File content at a path (`fs.readFileSync`, with `none` when absent). -/
def fsLookup (fs : FS) (p : String) : Option String :=
  fs.files.lookup p

/-- Write or overwrite a file (`fs.writeFileSync`). -/
def fsWrite (fs : FS) (p content : String) : FS :=
  { fs with files := (p, content) :: fs.files.filter (fun kv => !(kv.1 == p)) }

/-- Remove a file (`fs.unlinkSync`). -/
def fsRemove (fs : FS) (p : String) : FS :=
  { fs with files := fs.files.filter (fun kv => !(kv.1 == p)) }

/-- POSIX `path.dirname`. -/
def dirname (p : String) : String :=
  match p.data.reverse.dropWhile (fun c => c ≠ '/') with
  | [] => "."
  | ['/'] => "/"
  | '/' :: rest => String.mk rest.reverse
  | _ => "."

/-- Old-path test of the create branch of `applyPatch`. -/
def isCreateSentinel (p : String) : Bool :=
  p == "/dev/null" || p == "a//dev/null" || strEndsWith p "/dev/null"

/-- New-path test of the delete branch of `applyPatch`. -/
def isDeleteSentinel (p : String) : Bool :=
  p == "/dev/null" || p == "b//dev/null" || strEndsWith p "/dev/null"

/-- Loop body of `applyPatch.execute` for one parsed file: create, delete
or modify, yielding the per-file report line and the new filesystem, or the
"ERROR..." string returned for a missing modify target. -/
def applyPatchFile (baseDir : String) (fs : FS) (f : PatchFile) :
    Except String (String × FS) :=
  let filePath := resolvePatchPath f.newPath baseDir
  if isCreateSentinel f.oldPath then
    let newContent :=
      joinLines (f.hunks.flatMap fun h =>
        (h.lines.filter fun l => strStartsWith l "+").map (fun l => l.drop 1))
    let dir := dirname filePath
    let fs1 := if fs.dirs.contains dir then fs else { fs with dirs := dir :: fs.dirs }
    .ok ("Created: " ++ filePath, fsWrite fs1 filePath newContent)
  else if isDeleteSentinel f.newPath then
    if (fsLookup fs filePath).isSome then
      .ok ("Deleted: " ++ filePath, fsRemove fs filePath)
    else
      .ok ("Skipped (already gone): " ++ filePath, fs)
  else
    match fsLookup fs filePath with
    | none =>
      .error ("ERROR: File not found: " ++ filePath ++ ". Use --- /dev/null for new file creation.")
    | some original =>
      .ok ("Modified: " ++ filePath, fsWrite fs filePath (applyHunks original f.hunks))

/-- Loop of `applyPatch.execute` over the parsed files, accumulating the
per-file report lines; a missing modify target returns the error string at
once, keeping the files already written. -/
def applyPatchFiles (baseDir : String) : List PatchFile → FS → List String → String × FS
  | [], fs, acc => ("Patch applied successfully:\n" ++ joinLines acc.reverse, fs)
  | f :: rest, fs, acc =>
    match applyPatchFile baseDir fs f with
    | .ok (msg, fs') => applyPatchFiles baseDir rest fs' (msg :: acc)
    | .error e => (e, fs)

/-- The apply_patch tool (`applyPatch.execute`). -/
def applyPatch (baseDir patchText : String) (fs : FS) : String × FS :=
  match parsePatch patchText with
  | [] =>
    ("ERROR: Could not parse any file changes from the patch. Make sure the patch is in unified diff format with --- and +++ headers. Alternatively, use the Write tool (to create files) or Edit tool (to modify files).",
     fs)
  | f :: rest => applyPatchFiles baseDir (f :: rest) fs []

/-! ## Derived definitions used by the verification -/

/-- Run a sequence of advance calls (target, probe outcome). -/
def runCalls (s : PipelineState) : List (String × Bool) → PipelineState
  | [] => s
  | c :: cs => runCalls (pipelineAdvance c.1 c.2 s).2 cs

/-- Transition-table targets of the calls that succeed, in order. -/
def validTargets (s : PipelineState) : List (String × Bool) → List Phase
  | [] => []
  | c :: cs =>
    if (pipelineAdvance c.1 c.2 s).1.isOk then
      (match TARGET_ALIASES c.1 with
       | some q => [q]
       | none => []) ++ validTargets (pipelineAdvance c.1 c.2 s).2 cs
    else validTargets (pipelineAdvance c.1 c.2 s).2 cs

/-- Fold of the transition table over a list of resolved targets: each
valid call rewrites the phase to its table target. -/
def tableFold (p0 : Phase) (qs : List Phase) : Phase :=
  qs.foldl (fun _ q => q) p0

/-- Operations that can touch a session's pipeline state. -/
inductive PipelineOp where
  | advanceOp (target : String) (probe : Bool)
  | statusOp (probe : Bool)
  | afterBashOp (toolName command : String)
  | afterTaskOp (toolName output : String)
  | userMessageOp (agent : String) (now : Nat)

/-- State effect of one operation. -/
def applyOp (s : PipelineState) : PipelineOp → PipelineState
  | .advanceOp t p => (pipelineAdvance t p s).2
  | .statusOp p => (pipelineStatus p s).2
  | .afterBashOp tl c => toolExecuteAfterBash tl c s
  | .afterTaskOp tl o => toolExecuteAfterTask tl o s
  | .userMessageOp a now => chatMessageUpdate a now s

/-- Run a sequence of operations. -/
def runOps (s : PipelineState) : List PipelineOp → PipelineState
  | [] => s
  | op :: ops => runOps (applyOp s op) ops

/-- Pure line-splice a hunk performs: replace the span of `hunkOldLen`
lines starting at line `oldStart` by the hunk's context and add lines,
with no inspection of the replaced lines. -/
def spliceSpec (lines : List String) (h : PatchHunk) : List String :=
  lines.take (h.oldStart - 1) ++ hunkAddLines h ++
    lines.drop (h.oldStart - 1 + hunkOldLen h)

/-- Reference reconstruction of the patched text: with ascending,
non-overlapping hunks this interleaves the unchanged regions of the
original lines (from index `base` on) with each hunk's replacement lines;
it is the line list of the target text "B" that such a diff encodes. -/
def applyFrom (la : List String) (base : Nat) : List PatchHunk → List String
  | [] => la.drop base
  | h :: t =>
    (la.drop base).take (h.oldStart - 1 - base) ++ hunkAddLines h ++
      applyFrom la (h.oldStart - 1 + hunkOldLen h) t

/-! ## Theorems -/

theorem ensure_phase (p : Bool) (s : PipelineState) :
    (ensureGitRepoDetected p s).phase = s.phase := by
  unfold ensureGitRepoDetected; cases s.isGitRepo <;> rfl

theorem ensure_iterations (p : Bool) (s : PipelineState) :
    (ensureGitRepoDetected p s).iterations = s.iterations := by
  unfold ensureGitRepoDetected; cases s.isGitRepo <;> rfl

theorem ensure_gitDiffCalled (p : Bool) (s : PipelineState) :
    (ensureGitRepoDetected p s).gitDiffCalled = s.gitDiffCalled := by
  unfold ensureGitRepoDetected; cases s.isGitRepo <;> rfl

theorem ensure_dispatches (p : Bool) (s : PipelineState) :
    (ensureGitRepoDetected p s).dispatches = s.dispatches := by
  unfold ensureGitRepoDetected; cases s.isGitRepo <;> rfl

theorem ensure_startTime (p : Bool) (s : PipelineState) :
    (ensureGitRepoDetected p s).startTime = s.startTime := by
  unfold ensureGitRepoDetected; cases s.isGitRepo <;> rfl

theorem pipelineAdvance_cases (t : String) (p : Bool) (s : PipelineState) :
    ((pipelineAdvance t p s).1.isOk = false ∧ (pipelineAdvance t p s).2 = ensureGitRepoDetected p s) ∨
    (t = "iterate" ∧ TARGET_ALIASES t = some .dispatching ∧
      Phase.dispatching ∈ TRANSITIONS s.phase ∧ s.iterations < MAX_ITERATIONS ∧
      (pipelineAdvance t p s).1.isOk = true ∧
      (pipelineAdvance t p s).2 =
        { ensureGitRepoDetected p s with
          gitDiffCalled := false
          iterations := s.iterations + 1
          dispatches := s.dispatches + 1
          phase := .dispatching }) ∨
    (∃ q, TARGET_ALIASES t = some q ∧ q ∈ TRANSITIONS s.phase ∧ t ≠ "iterate" ∧
      (pipelineAdvance t p s).1.isOk = true ∧
      (pipelineAdvance t p s).2 =
        { ensureGitRepoDetected p s with
          phase := q
          dispatches := if q = .dispatching then s.dispatches + 1 else s.dispatches }) := by
  have hph := ensure_phase p s
  have hit := ensure_iterations p s
  have hdp := ensure_dispatches p s
  simp only [pipelineAdvance]
  cases hta : TARGET_ALIASES t with
  | none => exact Or.inl ⟨rfl, rfl⟩
  | some q =>
    dsimp only
    by_cases hmem : q ∈ TRANSITIONS (ensureGitRepoDetected p s).phase
    · rw [if_pos hmem]
      by_cases hiter : t = "iterate"
      · rw [if_pos hiter]
        have hq : q = .dispatching := by
          subst hiter
          have : TARGET_ALIASES "iterate" = some Phase.dispatching := by decide
          rw [this] at hta; exact (Option.some.inj hta).symm
        by_cases hcap : MAX_ITERATIONS ≤ (ensureGitRepoDetected p s).iterations
        · rw [if_pos hcap]; exact Or.inl ⟨rfl, rfl⟩
        · rw [if_neg hcap]
          refine Or.inr (Or.inl ⟨hiter, by rw [hq], ?_, ?_, rfl, ?_⟩)
          · rw [← hph]; rw [hq] at hmem; exact hmem
          · omega
          · rw [hit, hdp]
      · rw [if_neg hiter]
        by_cases hrep : t = "report" ∧ (ensureGitRepoDetected p s).gitDiffCalled = false ∧
            (ensureGitRepoDetected p s).isGitRepo ≠ some false
        · rw [if_pos hrep]; exact Or.inl ⟨rfl, rfl⟩
        · rw [if_neg hrep]
          refine Or.inr (Or.inr ⟨q, rfl, by rw [← hph]; exact hmem, hiter, rfl, ?_⟩)
          rw [hdp]
    · rw [if_neg hmem]
      exact Or.inl ⟨rfl, rfl⟩

theorem ensure_of_some (p b : Bool) (s : PipelineState) (h : s.isGitRepo = some b) :
    ensureGitRepoDetected p s = s := by
  unfold ensureGitRepoDetected; rw [h]

theorem pipelineAdvance_valid_ok (t : String) (p : Bool) (s : PipelineState) (q : Phase)
    (hta : TARGET_ALIASES t = some q)
    (hmem : q ∈ TRANSITIONS s.phase)
    (hiter : t = "iterate" → s.iterations < MAX_ITERATIONS)
    (hrep : t = "report" → (s.gitDiffCalled = true ∨ (ensureGitRepoDetected p s).isGitRepo = some false)) :
    (pipelineAdvance t p s).1.isOk = true ∧ (pipelineAdvance t p s).2.phase = q := by
  have hph := ensure_phase p s
  have hit := ensure_iterations p s
  have hgd := ensure_gitDiffCalled p s
  simp only [pipelineAdvance]
  rw [hta]
  dsimp only
  rw [if_pos (by rw [hph]; exact hmem)]
  by_cases hi : t = "iterate"
  · have hq : q = Phase.dispatching := by
      rw [hi] at hta
      have h2 : TARGET_ALIASES "iterate" = some Phase.dispatching := by decide
      rw [h2] at hta
      exact (Option.some.inj hta).symm
    rw [if_pos hi, if_neg (by rw [hit]; exact Nat.not_le.mpr (hiter hi))]
    exact ⟨rfl, hq.symm⟩
  · rw [if_neg hi]
    have hcond : ¬ (t = "report" ∧ (ensureGitRepoDetected p s).gitDiffCalled = false ∧
        (ensureGitRepoDetected p s).isGitRepo ≠ some false) := by
      rintro ⟨hr, hgdf, hng⟩
      rcases hrep hr with h | h
      · rw [hgd, h] at hgdf; exact Bool.true_eq_false.mp hgdf
      · exact hng h
    rw [if_neg hcond]
    exact ⟨rfl, rfl⟩

theorem pipelineAdvance_error_frame (t : String) (p : Bool) (s : PipelineState)
    (herr : (pipelineAdvance t p s).1.isOk = false) :
    (pipelineAdvance t p s).2.phase = s.phase ∧
    (pipelineAdvance t p s).2.iterations = s.iterations ∧
    (pipelineAdvance t p s).2.dispatches = s.dispatches ∧
    (pipelineAdvance t p s).2.gitDiffCalled = s.gitDiffCalled := by
  rcases pipelineAdvance_cases t p s with ⟨_, h2⟩ | ⟨_, _, _, _, hok, _⟩ | ⟨q, _, _, _, hok, _⟩
  · rw [h2]
    exact ⟨ensure_phase p s, ensure_iterations p s, ensure_dispatches p s, ensure_gitDiffCalled p s⟩
  · rw [hok] at herr; exact absurd herr (by simp)
  · rw [hok] at herr; exact absurd herr (by simp)

theorem pipelineAdvance_ok_phase (t : String) (p : Bool) (s : PipelineState)
    (hok : (pipelineAdvance t p s).1.isOk = true) :
    ∃ q, TARGET_ALIASES t = some q ∧ q ∈ TRANSITIONS s.phase ∧
      (pipelineAdvance t p s).2.phase = q := by
  rcases pipelineAdvance_cases t p s with ⟨herr, _⟩ | ⟨_, hta, hmem, _, _, h2⟩ | ⟨q, hta, hmem, _, _, h2⟩
  · rw [hok] at herr; exact absurd herr (by simp)
  · exact ⟨.dispatching, hta, hmem, by rw [h2]⟩
  · exact ⟨q, hta, hmem, by rw [h2]⟩

theorem runCalls_phase_eq_tableFold (calls : List (String × Bool)) (s : PipelineState) :
    (runCalls s calls).phase = tableFold s.phase (validTargets s calls) := by
  induction calls generalizing s with
  | nil => rfl
  | cons c cs ih =>
    show (runCalls (pipelineAdvance c.1 c.2 s).2 cs).phase = _
    by_cases hok : (pipelineAdvance c.1 c.2 s).1.isOk = true
    · rcases pipelineAdvance_ok_phase c.1 c.2 s hok with ⟨q, hta, _, hph⟩
      simp only [validTargets]
      rw [if_pos hok, hta, ih, hph]
      rfl
    · have hof : (pipelineAdvance c.1 c.2 s).1.isOk = false := by
        cases h : (pipelineAdvance c.1 c.2 s).1.isOk
        · rfl
        · exact absurd h hok
      have hph := (pipelineAdvance_error_frame c.1 c.2 s hof).1
      simp only [validTargets]
      rw [if_neg (by rw [hof]; exact Bool.false_ne_true), ih, hph]

theorem pipelineAdvance_iterations_le (t : String) (p : Bool) (s : PipelineState)
    (h : s.iterations ≤ MAX_ITERATIONS) :
    (pipelineAdvance t p s).2.iterations ≤ MAX_ITERATIONS := by
  rcases pipelineAdvance_cases t p s with ⟨_, h2⟩ | ⟨_, _, _, hlt, _, h2⟩ | ⟨q, _, _, _, _, h2⟩
  · rw [h2, ensure_iterations]; exact h
  · rw [h2]; exact hlt
  · rw [h2]; show (ensureGitRepoDetected p s).iterations ≤ _
    rw [ensure_iterations]; exact h

theorem afterBash_iterations (tl c : String) (s : PipelineState) :
    (toolExecuteAfterBash tl c s).iterations = s.iterations := by
  unfold toolExecuteAfterBash
  split
  · split
    · rfl
    · rfl
  · rfl

theorem afterTask_iterations (tl o : String) (s : PipelineState) :
    (toolExecuteAfterTask tl o s).iterations = s.iterations := by
  unfold toolExecuteAfterTask
  split
  · split
    · rfl
    · rfl
  · rfl

theorem chatMessageUpdate_iterations (a : String) (now : Nat) (s : PipelineState) :
    (chatMessageUpdate a now s).iterations = 0 ∨
    (chatMessageUpdate a now s).iterations = s.iterations := by
  unfold chatMessageUpdate
  split
  · split
    · exact Or.inl rfl
    · exact Or.inr rfl
  · exact Or.inr rfl

theorem applyOp_iterations_le (op : PipelineOp) (s : PipelineState)
    (h : s.iterations ≤ MAX_ITERATIONS) :
    (applyOp s op).iterations ≤ MAX_ITERATIONS := by
  cases op with
  | advanceOp t p =>
    simp only [applyOp]
    exact pipelineAdvance_iterations_le t p s h
  | statusOp p =>
    simp only [applyOp]
    show (ensureGitRepoDetected p s).iterations ≤ _
    rw [ensure_iterations]; exact h
  | afterBashOp tl c =>
    simp only [applyOp]
    rw [afterBash_iterations]; exact h
  | afterTaskOp tl o =>
    simp only [applyOp]
    rw [afterTask_iterations]; exact h
  | userMessageOp a now =>
    simp only [applyOp]
    rcases chatMessageUpdate_iterations a now s with h0 | h0 <;> rw [h0]
    · exact Nat.zero_le _
    · exact h

theorem runOps_iterations_le (ops : List PipelineOp) (s : PipelineState)
    (h : s.iterations ≤ MAX_ITERATIONS) :
    (runOps s ops).iterations ≤ MAX_ITERATIONS := by
  induction ops generalizing s with
  | nil => exact h
  | cons op ops ih => exact ih (applyOp s op) (applyOp_iterations_le op s h)

theorem strStartsWith_append (a b p : String) (h : strStartsWith a p = true) :
    strStartsWith (a ++ b) p = true := by
  unfold strStartsWith at h ⊢
  rw [String.data_append]
  rw [List.isPrefixOf_iff_prefix] at h ⊢
  exact h.trans (List.prefix_append a.data b.data)

theorem unknownTargetMsg_isError (t : String) :
    strStartsWith (unknownTargetMsg t) "ERROR" = true := by
  unfold unknownTargetMsg
  exact strStartsWith_append _ _ _ (strStartsWith_append _ _ _ (strStartsWith_append _ _ _ (by decide)))

theorem invalidTransitionMsg_isError (cur : Phase) (t : String) :
    strStartsWith (invalidTransitionMsg cur t) "ERROR" = true := by
  unfold invalidTransitionMsg
  refine strStartsWith_append _ _ _ ?_
  refine strStartsWith_append _ _ _ ?_
  refine strStartsWith_append _ _ _ ?_
  refine strStartsWith_append _ _ _ ?_
  refine strStartsWith_append _ _ _ ?_
  refine strStartsWith_append _ _ _ ?_
  refine strStartsWith_append _ _ _ ?_
  decide

theorem pipelineAdvance_error_starts_ERROR (t : String) (p : Bool) (s : PipelineState)
    (e : String) (herr : (pipelineAdvance t p s).1 = .error e) :
    strStartsWith e "ERROR" = true := by
  simp only [pipelineAdvance] at herr
  cases hta : TARGET_ALIASES t with
  | none =>
    rw [hta] at herr
    dsimp only at herr
    cases herr
    exact unknownTargetMsg_isError t
  | some q =>
    rw [hta] at herr
    dsimp only at herr
    by_cases hmem : q ∈ TRANSITIONS (ensureGitRepoDetected p s).phase
    · rw [if_pos hmem] at herr
      by_cases hi : t = "iterate"
      · rw [if_pos hi] at herr
        by_cases hcap : MAX_ITERATIONS ≤ (ensureGitRepoDetected p s).iterations
        · rw [if_pos hcap] at herr
          cases herr
          decide
        · rw [if_neg hcap] at herr
          cases herr
      · rw [if_neg hi] at herr
        by_cases hrep : t = "report" ∧ (ensureGitRepoDetected p s).gitDiffCalled = false ∧
            (ensureGitRepoDetected p s).isGitRepo ≠ some false
        · rw [if_pos hrep] at herr
          cases herr
          decide
        · rw [if_neg hrep] at herr
          cases herr
    · rw [if_neg hmem] at herr
      cases herr
      exact invalidTransitionMsg_isError _ t

/-- C1: every advance call whose resolved target is reachable from the
current phase and whose prerequisite holds succeeds and sets the phase to
the transition-table target; every call that returns an ERROR string leaves
phase, iterations, dispatches and gitDiffCalled unchanged; consequently the
final phase of any call sequence is the deterministic fold of the
transition-table targets of the valid calls. -/
theorem advance_respects_transition_table :
    (∀ (t : String) (p : Bool) (s : PipelineState) (q : Phase),
        TARGET_ALIASES t = some q → q ∈ TRANSITIONS s.phase →
        (t = "iterate" → s.iterations < MAX_ITERATIONS) →
        (t = "report" → (s.gitDiffCalled = true ∨ (ensureGitRepoDetected p s).isGitRepo = some false)) →
        (pipelineAdvance t p s).1.isOk = true ∧ (pipelineAdvance t p s).2.phase = q) ∧
    (∀ (t : String) (p : Bool) (s : PipelineState) (e : String),
        (pipelineAdvance t p s).1 = .error e →
        strStartsWith e "ERROR" = true ∧
        (pipelineAdvance t p s).2.phase = s.phase ∧
        (pipelineAdvance t p s).2.iterations = s.iterations ∧
        (pipelineAdvance t p s).2.dispatches = s.dispatches ∧
        (pipelineAdvance t p s).2.gitDiffCalled = s.gitDiffCalled) ∧
    (∀ (calls : List (String × Bool)) (s : PipelineState),
        (runCalls s calls).phase = tableFold s.phase (validTargets s calls)) := by
  refine ⟨pipelineAdvance_valid_ok, ?_, runCalls_phase_eq_tableFold⟩
  intro t p s e herr
  have hof : (pipelineAdvance t p s).1.isOk = false := by rw [herr]; rfl
  exact ⟨pipelineAdvance_error_starts_ERROR t p s e herr,
         pipelineAdvance_error_frame t p s hof⟩

/-- Witness for C1 at concrete inputs. -/
theorem advance_respects_transition_table_witness :
    ((pipelineAdvance "refine" true ⟨.brainstorming, 0, false, some true, 0, 0⟩).1.isOk = true ∧
     (pipelineAdvance "refine" true ⟨.brainstorming, 0, false, some true, 0, 0⟩).2.phase = .refining) ∧
    (runCalls ⟨.brainstorming, 0, false, some true, 0, 0⟩
        [("refine", true), ("iterate", true), ("dispatch", true)]).phase =
      tableFold Phase.brainstorming
        (validTargets ⟨.brainstorming, 0, false, some true, 0, 0⟩
          [("refine", true), ("iterate", true), ("dispatch", true)]) := by
  exact ⟨advance_respects_transition_table.1 "refine" true _ .refining (by decide) (by decide)
           (by decide) (by decide),
         advance_respects_transition_table.2.2 _ _⟩

/-- C2: in phase reviewing, advance to report errors and changes nothing
when no git diff has been observed in a detected git repository; when the
directory is known not to be a git repository the prerequisite is waived;
and once a bash command starting (after leading whitespace) with "git diff"
completes during reviewing, gitDiffCalled is set and the report transition
succeeds, reaching reporting. -/
theorem report_prerequisite (probe : Bool) (cmd : String) (s : PipelineState)
    (hph : s.phase = .reviewing) :
    (s.gitDiffCalled = false → s.isGitRepo = some true →
      (pipelineAdvance "report" probe s).1 = .error gitDiffRequiredMsg ∧
      (pipelineAdvance "report" probe s).2 = s) ∧
    (s.isGitRepo = some false →
      (pipelineAdvance "report" probe s).1.isOk = true ∧
      (pipelineAdvance "report" probe s).2.phase = .reporting) ∧
    (strStartsWith (trimStartStr cmd) "git diff" = true →
      (toolExecuteAfterBash "bash" cmd s).gitDiffCalled = true ∧
      (pipelineAdvance "report" probe (toolExecuteAfterBash "bash" cmd s)).1.isOk = true ∧
      (pipelineAdvance "report" probe (toolExecuteAfterBash "bash" cmd s)).2.phase = .reporting) := by
  refine ⟨?_, ?_, ?_⟩
  · intro hgd hgit
    have hens : ensureGitRepoDetected probe s = s := ensure_of_some probe true s hgit
    simp only [pipelineAdvance, hens]
    rw [(by decide : TARGET_ALIASES "report" = some Phase.reporting)]
    dsimp only
    rw [if_pos (show Phase.reporting ∈ TRANSITIONS s.phase by rw [hph]; decide)]
    rw [if_neg (show ¬ ("report" = "iterate") by decide)]
    rw [if_pos (show True ∧ s.gitDiffCalled = false ∧ s.isGitRepo ≠ some false from
          ⟨trivial, hgd, by rw [hgit]; decide⟩)]
    exact ⟨rfl, rfl⟩
  · intro hgit
    exact pipelineAdvance_valid_ok "report" probe s .reporting (by decide)
      (by rw [hph]; decide) (fun h => absurd h (by decide))
      (fun _ => Or.inr (by rw [ensure_of_some probe false s hgit, hgit]))
  · intro hcmd
    have hbash : toolExecuteAfterBash "bash" cmd s = { s with gitDiffCalled := true } := by
      unfold toolExecuteAfterBash
      rw [if_pos ⟨Or.inl rfl, hph⟩, if_pos hcmd]
    rw [hbash]
    refine ⟨rfl, ?_⟩
    exact pipelineAdvance_valid_ok "report" probe _ .reporting (by decide)
      (by show Phase.reporting ∈ TRANSITIONS s.phase; rw [hph]; decide)
      (fun h => absurd h (by decide))
      (fun _ => Or.inl rfl)

/-- Witness for C2 at concrete inputs. -/
theorem report_prerequisite_witness :
    ((pipelineAdvance "report" true ⟨.reviewing, 0, false, some true, 5, 1⟩).1 =
        .error gitDiffRequiredMsg ∧
     (pipelineAdvance "report" true ⟨.reviewing, 0, false, some true, 5, 1⟩).2 =
        ⟨.reviewing, 0, false, some true, 5, 1⟩) ∧
    ((pipelineAdvance "report" true ⟨.reviewing, 0, false, some false, 5, 1⟩).1.isOk = true ∧
     (pipelineAdvance "report" true ⟨.reviewing, 0, false, some false, 5, 1⟩).2.phase = .reporting) ∧
    ((toolExecuteAfterBash "bash" "  git diff HEAD" ⟨.reviewing, 0, false, some true, 5, 1⟩).gitDiffCalled = true ∧
     (pipelineAdvance "report" true
        (toolExecuteAfterBash "bash" "  git diff HEAD" ⟨.reviewing, 0, false, some true, 5, 1⟩)).2.phase = .reporting) := by
  have h1 := report_prerequisite true "  git diff HEAD" ⟨.reviewing, 0, false, some true, 5, 1⟩ rfl
  have h2 := report_prerequisite true "x" ⟨.reviewing, 0, false, some false, 5, 1⟩ rfl
  exact ⟨h1.1 rfl rfl, h2.2.1 rfl,
         (h1.2.2 (by decide)).1, (h1.2.2 (by decide)).2.2⟩

/-- C3: in phase reviewing with the iteration cap reached, advance to
iterate errors and mutates none of phase, iterations, dispatches or
gitDiffCalled; and iterations never exceeds the cap of 3 under any
sequence of operations. -/
theorem iterate_at_cap (probe : Bool) (s : PipelineState)
    (hph : s.phase = .reviewing) (hcap : s.iterations = 3) :
    ((pipelineAdvance "iterate" probe s).1 = .error maxIterationsMsg ∧
     (pipelineAdvance "iterate" probe s).2.phase = s.phase ∧
     (pipelineAdvance "iterate" probe s).2.iterations = s.iterations ∧
     (pipelineAdvance "iterate" probe s).2.dispatches = s.dispatches ∧
     (pipelineAdvance "iterate" probe s).2.gitDiffCalled = s.gitDiffCalled) ∧
    (∀ (ops : List PipelineOp) (s0 : PipelineState),
        s0.iterations ≤ MAX_ITERATIONS → (runOps s0 ops).iterations ≤ MAX_ITERATIONS) := by
  have herr : (pipelineAdvance "iterate" probe s).1 = .error maxIterationsMsg := by
    simp only [pipelineAdvance]
    rw [(by decide : TARGET_ALIASES "iterate" = some Phase.dispatching)]
    dsimp only
    rw [if_pos (show Phase.dispatching ∈ TRANSITIONS (ensureGitRepoDetected probe s).phase by
          rw [ensure_phase, hph]; decide)]
    rw [if_pos (show True from trivial)]
    rw [if_pos (show MAX_ITERATIONS ≤ (ensureGitRepoDetected probe s).iterations by
          rw [ensure_iterations, hcap]; decide)]
  have hof : (pipelineAdvance "iterate" probe s).1.isOk = false := by rw [herr]; rfl
  exact ⟨⟨herr, pipelineAdvance_error_frame _ probe s hof⟩,
         fun ops s0 h => runOps_iterations_le ops s0 h⟩

/-- Witness for C3 at concrete inputs. -/
theorem iterate_at_cap_witness :
    ((pipelineAdvance "iterate" true ⟨.reviewing, 3, true, some true, 0, 4⟩).1 =
        .error maxIterationsMsg ∧
     (pipelineAdvance "iterate" true ⟨.reviewing, 3, true, some true, 0, 4⟩).2.iterations = 3) ∧
    (runOps ⟨.reviewing, 3, true, some true, 0, 4⟩
        [.advanceOp "iterate" true, .advanceOp "report" true]).iterations ≤ MAX_ITERATIONS := by
  have h := iterate_at_cap true ⟨.reviewing, 3, true, some true, 0, 4⟩ rfl rfl
  exact ⟨⟨h.1.1, h.1.2.2.1⟩, h.2 _ _ (by decide)⟩

/-- C4: in phase reviewing under the iteration cap, advance to iterate
succeeds, forcing phase to dispatching, incrementing iterations and
dispatches, and resetting gitDiffCalled. -/
theorem iterate_under_cap (probe : Bool) (s : PipelineState)
    (hph : s.phase = .reviewing) (hit : s.iterations < 3) :
    (pipelineAdvance "iterate" probe s).1.isOk = true ∧
    (pipelineAdvance "iterate" probe s).2.phase = .dispatching ∧
    (pipelineAdvance "iterate" probe s).2.iterations = s.iterations + 1 ∧
    (pipelineAdvance "iterate" probe s).2.dispatches = s.dispatches + 1 ∧
    (pipelineAdvance "iterate" probe s).2.gitDiffCalled = false := by
  simp [pipelineAdvance, TARGET_ALIASES, TRANSITIONS, MAX_ITERATIONS,
    ensure_phase, ensure_iterations, ensure_gitDiffCalled, ensure_dispatches, hph]
  rw [if_neg (by omega)]
  simp [ensure_iterations, ensure_dispatches, Except.toBool]

/-- Witness for C4: the concrete scenario with iterations 0. -/
theorem iterate_under_cap_witness :
    (pipelineAdvance "iterate" true ⟨.reviewing, 0, true, some true, 9, 1⟩).1.isOk = true ∧
    (pipelineAdvance "iterate" true ⟨.reviewing, 0, true, some true, 9, 1⟩).2.phase = .dispatching ∧
    (pipelineAdvance "iterate" true ⟨.reviewing, 0, true, some true, 9, 1⟩).2.iterations = 0 + 1 ∧
    (pipelineAdvance "iterate" true ⟨.reviewing, 0, true, some true, 9, 1⟩).2.dispatches = 1 + 1 ∧
    (pipelineAdvance "iterate" true ⟨.reviewing, 0, true, some true, 9, 1⟩).2.gitDiffCalled = false :=
  iterate_under_cap true ⟨.reviewing, 0, true, some true, 9, 1⟩ rfl (by decide)

/-- C9: for a primary session with pipeline state outside the dispatching
phase, the task tool is rejected with a thrown explanatory error before
execution and the pipeline state is unchanged. -/
theorem task_gate_rejected (toolName : String) (s : PipelineState)
    (htool : toolName = "task" ∨ toolName = "Task") (hph : s.phase ≠ .dispatching) :
    (toolExecuteBefore true toolName (some s)).1 = .error (taskBlockedMsg s.phase) ∧
    (toolExecuteBefore true toolName (some s)).2 = some s := by
  unfold toolExecuteBefore
  rw [if_neg (by decide : ¬ (true = false))]
  dsimp only
  rw [if_pos ⟨htool, hph⟩]
  exact ⟨rfl, rfl⟩

/-- Witness for C9: the task tool attempted while refining. -/
theorem task_gate_rejected_witness :
    (toolExecuteBefore true "task" (some ⟨.refining, 0, false, none, 0, 0⟩)).1 =
      .error (taskBlockedMsg Phase.refining) ∧
    (toolExecuteBefore true "task" (some ⟨.refining, 0, false, none, 0, 0⟩)).2 =
      some ⟨.refining, 0, false, none, 0, 0⟩ :=
  task_gate_rejected "task" ⟨.refining, 0, false, none, 0, 0⟩ (Or.inl rfl) (by decide)

/-- C5 fails as stated: `pipelineStatus` runs the lazy git-repository
detection, so with `isGitRepo` still undetected the call memoizes the probe
result and the `isGitRepo` field differs after the call. -/
theorem status_mutates_isGitRepo_cex :
    (pipelineStatus true ⟨.reviewing, 1, false, none, 0, 1⟩).2.isGitRepo ≠
      (⟨.reviewing, 1, false, none, 0, 1⟩ : PipelineState).isGitRepo := by decide

/-- C5 amended: `pipelineStatus` leaves phase, iterations, dispatches,
gitDiffCalled and startTime unchanged; `isGitRepo` is unchanged whenever it
was already detected, and is set to the memoized probe result when it was
still undetected. -/
theorem status_frame (probe : Bool) (s : PipelineState) :
    (pipelineStatus probe s).2.phase = s.phase ∧
    (pipelineStatus probe s).2.iterations = s.iterations ∧
    (pipelineStatus probe s).2.dispatches = s.dispatches ∧
    (pipelineStatus probe s).2.gitDiffCalled = s.gitDiffCalled ∧
    (pipelineStatus probe s).2.startTime = s.startTime ∧
    (s.isGitRepo ≠ none → (pipelineStatus probe s).2.isGitRepo = s.isGitRepo) ∧
    (s.isGitRepo = none → (pipelineStatus probe s).2.isGitRepo = some probe) := by
  have h2 : (pipelineStatus probe s).2 = ensureGitRepoDetected probe s := rfl
  rw [h2]
  refine ⟨ensure_phase probe s, ensure_iterations probe s, ensure_dispatches probe s,
    ensure_gitDiffCalled probe s, ensure_startTime probe s, ?_, ?_⟩
  · intro hne
    cases hg : s.isGitRepo with
    | none => exact absurd hg hne
    | some b => rw [ensure_of_some probe b s hg, hg]
  · intro hnone
    unfold ensureGitRepoDetected
    rw [hnone]

theorem applyOneHunk_eq_spliceSpec (lines : List String) (h : PatchHunk)
    (hpos : 1 ≤ h.oldStart) :
    applyOneHunk lines h = spliceSpec lines h := by
  unfold applyOneHunk spliceJS spliceSpec
  dsimp only
  have hneg : ¬ ((h.oldStart : Int) - 1 < 0) := by omega
  rw [if_neg hneg]
  have htn : ((h.oldStart : Int) - 1).toNat = h.oldStart - 1 := by omega
  rw [htn]
  rcases Nat.le_total (h.oldStart - 1) lines.length with hle | hge
  · rw [Nat.min_eq_left hle]
  · rw [Nat.min_eq_right hge, List.take_length, List.take_of_length_le hge,
        List.drop_eq_nil_of_le (Nat.le_add_right _ _),
        List.drop_eq_nil_of_le (Nat.le_trans hge (Nat.le_add_right _ _))]
theorem foldl_spliceSpec_eq (la : List String) (hs : List PatchHunk)
    (hpos : ∀ h ∈ hs, 1 ≤ h.oldStart) :
    hs.foldl applyOneHunk la = hs.foldl spliceSpec la := by
  induction hs generalizing la with
  | nil => rfl
  | cons h t ih =>
    show t.foldl applyOneHunk (applyOneHunk la h) = t.foldl spliceSpec (spliceSpec la h)
    rw [applyOneHunk_eq_spliceSpec la h (hpos h (List.mem_cons_self h t))]
    exact ih _ (fun h' hm => hpos h' (List.mem_cons_of_mem h hm))

/-- C10: `applyHunks` is a total function with no error outcome; it never
checks the replaced lines against a hunk's context and remove lines, and
for every content and every hunk list it just splices each hunk: the span
of `hunkOldLen` lines starting at line `oldStart` is replaced by the
hunk's context and add lines, regardless of the original content. -/
theorem applyHunks_unconditional_splice (content : String) (hs : List PatchHunk)
    (hpos : ∀ h ∈ hs, 1 ≤ h.oldStart) :
    applyHunks content hs =
      joinLines ((sortHunksDesc hs).foldl spliceSpec (splitLines content)) := by
  unfold applyHunks
  rw [foldl_spliceSpec_eq]
  intro h hm
  exact hpos h ((List.perm_insertionSort _ hs).mem_iff.mp hm)

/-- Witness for C10: a hunk whose remove line does not match the content is
spliced in all the same. -/
theorem applyHunks_unconditional_splice_witness :
    applyHunks "x\ny\nz" [⟨2, 1, 2, 1, ["-NOMATCH", "+Q"]⟩] =
      joinLines ((sortHunksDesc [⟨2, 1, 2, 1, ["-NOMATCH", "+Q"]⟩]).foldl
        spliceSpec (splitLines "x\ny\nz")) ∧
    applyHunks "x\ny\nz" [⟨2, 1, 2, 1, ["-NOMATCH", "+Q"]⟩] = "x\nQ\nz" :=
  ⟨applyHunks_unconditional_splice "x\ny\nz" [⟨2, 1, 2, 1, ["-NOMATCH", "+Q"]⟩] (by decide),
   by decide⟩

theorem fsLookup_fsWrite_self (fs : FS) (p c : String) :
    fsLookup (fsWrite fs p c) p = some c := by
  simp [fsLookup, fsWrite, List.lookup]

theorem lookup_filter_ne {q p : String} (l : List (String × String)) (hne : q ≠ p) :
    List.lookup q (l.filter fun kv => !(kv.1 == p)) = List.lookup q l := by
  induction l with
  | nil => rfl
  | cons kv l ih =>
    rw [List.filter_cons]
    by_cases hk : kv.1 = p
    · rw [if_neg (by simp [hk])]
      have hbeq : (q == kv.1) = false := by
        rw [hk]; exact beq_eq_false_iff_ne.mpr hne
      rw [ih]
      simp [List.lookup, hbeq]
    · rw [if_pos (by simp [hk])]
      cases hqb : q == kv.1 with
      | true => simp [List.lookup, hqb]
      | false => simp [List.lookup, hqb, ih]

theorem fsLookup_fsWrite_ne (fs : FS) (p c q : String) (hne : q ≠ p) :
    fsLookup (fsWrite fs p c) q = fsLookup fs q := by
  unfold fsLookup fsWrite
  show List.lookup q ((p, c) :: _) = _
  have hbeq : (q == p) = false := beq_eq_false_iff_ne.mpr hne
  rw [show List.lookup q ((p, c) :: List.filter (fun kv => !(kv.1 == p)) fs.files) =
      List.lookup q (List.filter (fun kv => !(kv.1 == p)) fs.files) from by
    simp [List.lookup, hbeq]]
  exact lookup_filter_ne fs.files hne

theorem fsLookup_fsRemove_self (fs : FS) (p : String) :
    fsLookup (fsRemove fs p) p = none := by
  unfold fsLookup fsRemove
  show List.lookup p (fs.files.filter fun kv => !(kv.1 == p)) = none
  induction fs.files with
  | nil => rfl
  | cons kv l ih =>
    rw [List.filter_cons]
    by_cases hk : kv.1 = p
    · rw [if_neg (by simp [hk])]
      exact ih
    · rw [if_pos (by simp [hk])]
      have hbeq : (p == kv.1) = false := beq_eq_false_iff_ne.mpr (fun h => hk h.symm)
      simp [List.lookup, hbeq, ih]

/-- C7: for a patch file whose old path is the no-file sentinel,
`applyPatch` reports "Created" and writes to the resolved new path the
add-tagged lines of all hunks in order, joined by newlines, after ensuring
the parent directory exists; other files are untouched. -/
theorem applyPatch_create (baseDir : String) (fs : FS) (f : PatchFile)
    (hold : isCreateSentinel f.oldPath = true) :
    ∃ fs', applyPatchFile baseDir fs f =
        .ok ("Created: " ++ resolvePatchPath f.newPath baseDir, fs') ∧
      fsLookup fs' (resolvePatchPath f.newPath baseDir) =
        some (joinLines (f.hunks.flatMap fun h =>
          (h.lines.filter fun l => strStartsWith l "+").map (fun l => l.drop 1))) ∧
      fs'.dirs.contains (dirname (resolvePatchPath f.newPath baseDir)) = true ∧
      (∀ p, p ≠ resolvePatchPath f.newPath baseDir → fsLookup fs' p = fsLookup fs p) := by
  unfold applyPatchFile
  rw [if_pos hold]
  refine ⟨_, rfl, fsLookup_fsWrite_self _ _ _, ?_, ?_⟩
  · show ((if fs.dirs.contains (dirname (resolvePatchPath f.newPath baseDir)) then fs
      else { fs with dirs := dirname (resolvePatchPath f.newPath baseDir) :: fs.dirs }).dirs.contains
        (dirname (resolvePatchPath f.newPath baseDir))) = true
    by_cases hd : fs.dirs.contains (dirname (resolvePatchPath f.newPath baseDir)) = true
    · rw [if_pos hd]; exact hd
    · rw [if_neg hd]
      show ((dirname (resolvePatchPath f.newPath baseDir) :: fs.dirs).contains _) = true
      simp [List.contains_cons]
  · intro p hp
    rw [fsLookup_fsWrite_ne _ _ _ _ hp]
    by_cases hd : fs.dirs.contains (dirname (resolvePatchPath f.newPath baseDir)) = true
    · rw [if_pos hd]
    · rw [if_neg hd]
      rfl

/-- Witness for C7: the concrete scenario creating notes/todo.txt with
lines "a" and "b". -/
theorem applyPatch_create_witness :
    (∃ fs', applyPatchFile "/base" ⟨[], []⟩
        ⟨"/dev/null", "notes/todo.txt", [⟨1, 0, 1, 2, ["+a", "+b"]⟩]⟩ =
        .ok ("Created: " ++ resolvePatchPath "notes/todo.txt" "/base", fs') ∧
      fsLookup fs' (resolvePatchPath "notes/todo.txt" "/base") =
        some (joinLines ([(⟨1, 0, 1, 2, ["+a", "+b"]⟩ : PatchHunk)].flatMap fun h =>
          (h.lines.filter fun l => strStartsWith l "+").map (fun l => l.drop 1))) ∧
      fs'.dirs.contains (dirname (resolvePatchPath "notes/todo.txt" "/base")) = true ∧
      (∀ p, p ≠ resolvePatchPath "notes/todo.txt" "/base" →
        fsLookup fs' p = fsLookup (⟨[], []⟩ : FS) p)) ∧
    applyPatchFile "/base" ⟨[], []⟩
        ⟨"/dev/null", "notes/todo.txt", [⟨1, 0, 1, 2, ["+a", "+b"]⟩]⟩ =
      .ok ("Created: /base/notes/todo.txt",
           ⟨[("/base/notes/todo.txt", "a\nb")], ["/base/notes"]⟩) :=
  ⟨applyPatch_create "/base" ⟨[], []⟩ ⟨"/dev/null", "notes/todo.txt", [⟨1, 0, 1, 2, ["+a", "+b"]⟩]⟩
     (by decide),
   by decide⟩

/-- C8 fails as stated: a patch file whose old path is also the no-file
sentinel takes the create branch first, so with the target absent the
result is "Created", not "Skipped". -/
theorem delete_sentinel_cex :
    applyPatchFile "/base" ⟨[], []⟩ ⟨"/dev/null", "/dev/null", []⟩ =
      .ok ("Created: /dev/null", ⟨[("/dev/null", "")], ["/dev"]⟩) ∧
    applyPatchFile "/base" ⟨[], []⟩ ⟨"/dev/null", "/dev/null", []⟩ ≠
      .ok ("Skipped (already gone): /dev/null", ⟨[], []⟩) :=
  ⟨by decide, by decide⟩

/-- C8 amended: for a patch file whose new path is the no-file sentinel and
whose old path is not a create sentinel, `applyPatch` removes the resolved
target and reports "Deleted" when it exists, and reports "Skipped" without
an error when it is already absent; deletion is idempotent. -/
theorem delete_sentinel (baseDir : String) (fs : FS) (f : PatchFile)
    (hnew : isDeleteSentinel f.newPath = true)
    (hold : isCreateSentinel f.oldPath = false) :
    ((fsLookup fs (resolvePatchPath f.newPath baseDir)).isSome = true →
      applyPatchFile baseDir fs f =
        .ok ("Deleted: " ++ resolvePatchPath f.newPath baseDir,
             fsRemove fs (resolvePatchPath f.newPath baseDir)) ∧
      fsLookup (fsRemove fs (resolvePatchPath f.newPath baseDir))
        (resolvePatchPath f.newPath baseDir) = none) ∧
    ((fsLookup fs (resolvePatchPath f.newPath baseDir)).isSome = false →
      applyPatchFile baseDir fs f =
        .ok ("Skipped (already gone): " ++ resolvePatchPath f.newPath baseDir, fs)) := by
  unfold applyPatchFile
  rw [if_neg (by rw [hold]; exact Bool.false_ne_true), if_pos hnew]
  constructor
  · intro hex
    rw [if_pos hex]
    exact ⟨rfl, fsLookup_fsRemove_self fs _⟩
  · intro hab
    rw [if_neg (by rw [hab]; exact Bool.false_ne_true)]

/-- Witness for the amended C8: deleting an existing file, then deleting
the (now absent) same target again. -/
theorem delete_sentinel_witness :
    (applyPatchFile "/base" ⟨[("/dev/null", "x")], []⟩ ⟨"a/old.txt", "/dev/null", []⟩ =
      .ok ("Deleted: " ++ resolvePatchPath "/dev/null" "/base",
           fsRemove ⟨[("/dev/null", "x")], []⟩ (resolvePatchPath "/dev/null" "/base")) ∧
     fsLookup (fsRemove (⟨[("/dev/null", "x")], []⟩ : FS) (resolvePatchPath "/dev/null" "/base"))
       (resolvePatchPath "/dev/null" "/base") = none) ∧
    applyPatchFile "/base" ⟨[], []⟩ ⟨"a/old.txt", "/dev/null", []⟩ =
      .ok ("Skipped (already gone): " ++ resolvePatchPath "/dev/null" "/base", ⟨[], []⟩) :=
  ⟨(delete_sentinel "/base" ⟨[("/dev/null", "x")], []⟩ ⟨"a/old.txt", "/dev/null", []⟩
      (by decide) (by decide)).1 (by decide),
   (delete_sentinel "/base" ⟨[], []⟩ ⟨"a/old.txt", "/dev/null", []⟩
      (by decide) (by decide)).2 (by decide)⟩

theorem foldl_desc_eq_applyFrom (la : List String) (hs : List PatchHunk) (e : Nat)
    (hb : ∀ h ∈ hs, e ≤ h.oldStart - 1 ∧ 1 ≤ h.oldStart ∧
        h.oldStart - 1 + hunkOldLen h ≤ la.length)
    (hsep : List.Pairwise (fun a b => a.oldStart - 1 + hunkOldLen a ≤ b.oldStart - 1) hs) :
    hs.reverse.foldl applyOneHunk la = la.take e ++ applyFrom la e hs := by
  induction hs generalizing e with
  | nil => exact (List.take_append_drop e la).symm
  | cons h t ih =>
    obtain ⟨hb1, hb2, hb3⟩ := hb h (List.mem_cons_self h t)
    have hsep' := List.pairwise_cons.mp hsep
    have hbt : ∀ h' ∈ t, (h.oldStart - 1 + hunkOldLen h) ≤ h'.oldStart - 1 ∧
        1 ≤ h'.oldStart ∧ h'.oldStart - 1 + hunkOldLen h' ≤ la.length :=
      fun h' hm => ⟨hsep'.1 h' hm, (hb h' (List.mem_cons_of_mem h hm)).2.1,
        (hb h' (List.mem_cons_of_mem h hm)).2.2⟩
    have ihs := ih (h.oldStart - 1 + hunkOldLen h) hbt hsep'.2
    rw [List.reverse_cons, List.foldl_append]
    rw [ihs]
    show applyOneHunk (la.take (h.oldStart - 1 + hunkOldLen h) ++
        applyFrom la (h.oldStart - 1 + hunkOldLen h) t) h = _
    rw [applyOneHunk_eq_spliceSpec _ h hb2]
    unfold spliceSpec
    have hlen : (la.take (h.oldStart - 1 + hunkOldLen h)).length =
        h.oldStart - 1 + hunkOldLen h := by
      rw [List.length_take, Nat.min_eq_left hb3]
    rw [List.take_append_of_le_length (by rw [hlen]; exact Nat.le_add_right _ _)]
    rw [List.take_take, Nat.min_eq_left (Nat.le_add_right _ _)]
    rw [List.drop_left' hlen]
    have hsplit : la.take (h.oldStart - 1) =
        la.take e ++ (la.drop e).take (h.oldStart - 1 - e) := by
      rw [← List.take_add]
      congr 1
      omega
    show la.take (h.oldStart - 1) ++ hunkAddLines h ++
        applyFrom la (h.oldStart - 1 + hunkOldLen h) t = _
    rw [hsplit]
    simp only [applyFrom, List.append_assoc]

theorem sortHunksDesc_eq_reverse (hsIn hs : List PatchHunk)
    (hperm : hsIn.Perm hs)
    (hstrict : List.Pairwise (fun a b => a.oldStart < b.oldStart) hs) :
    sortHunksDesc hsIn = hs.reverse := by
  haveI instTot : IsTotal PatchHunk (fun a b => b.oldStart ≤ a.oldStart) :=
    ⟨fun a b => Nat.le_total b.oldStart a.oldStart⟩
  haveI instTrans : IsTrans PatchHunk (fun a b => b.oldStart ≤ a.oldStart) :=
    ⟨fun _ _ _ hab hbc => Nat.le_trans hbc hab⟩
  haveI instAnti : IsAntisymm PatchHunk (fun a b => b.oldStart < a.oldStart) :=
    ⟨fun _ _ h1 h2 => absurd h2 (Nat.lt_asymm h1)⟩
  have hperm2 : (sortHunksDesc hsIn).Perm hs.reverse :=
    (List.perm_insertionSort _ hsIn).trans (hperm.trans (List.reverse_perm hs).symm)
  have hsorted1 : List.Sorted (fun a b => b.oldStart ≤ a.oldStart) (sortHunksDesc hsIn) :=
    List.sorted_insertionSort _ hsIn
  have hnodupKeys : (hs.map (fun h => h.oldStart)).Nodup :=
    (List.pairwise_map.mpr hstrict).imp (fun hlt => Nat.ne_of_lt hlt)
  have hnodupSorted : ((sortHunksDesc hsIn).map (fun h => h.oldStart)).Nodup :=
    ((hperm2.trans (List.reverse_perm hs)).map _).nodup_iff.mpr hnodupKeys
  have hpw_ne : (sortHunksDesc hsIn).Pairwise (fun a b => a.oldStart ≠ b.oldStart) :=
    List.pairwise_map.mp hnodupSorted
  have hsorted_strict :
      List.Pairwise (fun a b : PatchHunk => b.oldStart < a.oldStart) (sortHunksDesc hsIn) :=
    (hsorted1.and hpw_ne).imp (fun hab => Nat.lt_of_le_of_ne hab.1 (Ne.symm hab.2))
  have hrev_strict :
      List.Pairwise (fun a b : PatchHunk => b.oldStart < a.oldStart) hs.reverse :=
    List.pairwise_reverse.mpr hstrict
  exact List.eq_of_perm_of_sorted hperm2 hsorted_strict hrev_strict

/-- C6: for text A and a unified diff between A and B given as a list of
parsed hunks that are non-overlapping, in ascending order, within bounds
and matching A on their context and remove lines, `applyHunks` applied to
A and any permutation of the hunks yields exactly B (reconstructed from A
and the hunks by `applyFrom`): the engine sorts the hunks by descending
`oldStart` and applies higher-numbered hunks first, so the result does not
depend on the input order. -/
theorem applyHunks_roundtrip (A : String) (hsIn hs : List PatchHunk)
    (hperm : hsIn.Perm hs)
    (hsort : List.Pairwise (fun a b => a.oldStart < b.oldStart ∧
        a.oldStart - 1 + hunkOldLen a ≤ b.oldStart - 1) hs)
    (hfit : ∀ h ∈ hs, 1 ≤ h.oldStart ∧
        h.oldStart - 1 + hunkOldLen h ≤ (splitLines A).length)
    (hmatch : ∀ h ∈ hs, hunkOldLines h =
        ((splitLines A).drop (h.oldStart - 1)).take (hunkOldLen h)) :
    applyHunks A hsIn = joinLines (applyFrom (splitLines A) 0 hs) := by
  unfold applyHunks
  rw [sortHunksDesc_eq_reverse hsIn hs hperm (hsort.imp (fun hab => hab.1))]
  rw [foldl_desc_eq_applyFrom (splitLines A) hs 0
    (fun h hm => ⟨Nat.zero_le _, (hfit h hm).1, (hfit h hm).2⟩)
    (hsort.imp (fun hab => hab.2))]
  rw [List.take_zero, List.nil_append]

/-- Witness for C6: a two-hunk diff of "a\nb\nc\nd\ne" applied with its
hunks in reversed input order still yields the reconstructed target. -/
theorem applyHunks_roundtrip_witness :
    applyHunks "a\nb\nc\nd\ne"
        [⟨4, 2, 4, 2, [" d", "-e", "+E2"]⟩, ⟨2, 1, 2, 1, ["-b", "+B"]⟩] =
      joinLines (applyFrom (splitLines "a\nb\nc\nd\ne") 0
        [⟨2, 1, 2, 1, ["-b", "+B"]⟩, ⟨4, 2, 4, 2, [" d", "-e", "+E2"]⟩]) ∧
    applyHunks "a\nb\nc\nd\ne"
        [⟨4, 2, 4, 2, [" d", "-e", "+E2"]⟩, ⟨2, 1, 2, 1, ["-b", "+B"]⟩] = "a\nB\nc\nd\nE2" :=
  ⟨applyHunks_roundtrip "a\nb\nc\nd\ne" _ _ (by decide) (by decide) (by decide) (by decide),
   by decide⟩

/-- Witness for the amended C5 at concrete states. -/
theorem status_frame_witness :
    (pipelineStatus false ⟨.reporting, 2, true, some true, 7, 3⟩).2.phase = .reporting ∧
    (pipelineStatus false ⟨.reporting, 2, true, some true, 7, 3⟩).2.isGitRepo = some true ∧
    (pipelineStatus true ⟨.reporting, 2, true, none, 7, 3⟩).2.isGitRepo = some true := by
  have h1 := status_frame false ⟨.reporting, 2, true, some true, 7, 3⟩
  have h2 := status_frame true ⟨.reporting, 2, true, none, 7, 3⟩
  exact ⟨h1.1, h1.2.2.2.2.2.1 (by decide), h2.2.2.2.2.2.2 rfl⟩

end Brir
